import Mathlib

/-!
Shallow embedding of the FreeAssetFilter C++ color extractor
(`src/freeassetfilter/core/cpp_color_extractor/color_extractor.cpp`).

Floating-point arithmetic of the source is modelled with exact real
arithmetic (`ℝ`); machine integers with `ℕ`/`ℤ`.  The process-global
random generators of the source (`std::random_device` seeded
`std::mt19937` plus the `uniform_*_distribution` adaptors) are modelled
as explicitly threaded random-source oracles, as the design notes of
the specification prescribe for testability; theorems quantify over all
oracles, so every behaviour of the original generator is covered.
-/

namespace FreeAssetFilter

/-- Lab color: three floating-point fields `L`, `a`, `b` (struct `Lab`).
The C++ default constructor zero-initialises, which `default` mirrors. -/
structure Lab where
  L : ℝ
  a : ℝ
  b : ℝ

instance : Inhabited Lab := ⟨⟨0, 0, 0⟩⟩

/-- RGB color: three 8-bit channels (struct `RGB`). -/
structure RGB where
  r : ℕ
  g : ℕ
  b : ℕ
deriving DecidableEq

/-- Cluster: a Lab centroid plus a population count (struct `Cluster`). -/
structure Cluster where
  centroid : Lab
  size : ℕ

/-! ### Color space conversion (lines 62–154) -/

/-- Gamma correction, sRGB to linear RGB (`gamma_correct`). -/
noncomputable def gamma_correct (c : ℝ) : ℝ :=
  if 0.04045 < c then ((c + 0.055) / 1.055) ^ (2.4 : ℝ) else c / 12.92

/-- Gamma correction, linear RGB to sRGB (`gamma_uncorrect`). -/
noncomputable def gamma_uncorrect (c : ℝ) : ℝ :=
  if 0.0031308 < c then 1.055 * c ^ ((1 : ℝ) / 2.4) - 0.055 else 12.92 * c

/-- CIE `f` nonlinearity used by `rgb_to_lab` (the local lambda `f`);
`std::cbrt` on the positive branch is real cube root. -/
noncomputable def lab_f (t : ℝ) : ℝ :=
  if 0.008856 < t then t ^ ((1 : ℝ) / 3) else 7.787 * t + 16.0 / 116.0

/-- RGB to Lab conversion (`rgb_to_lab`, lines 79–117). -/
noncomputable def rgb_to_lab (r g b : ℕ) : Lab :=
  let rf := gamma_correct ((r : ℝ) / 255.0)
  let gf := gamma_correct ((g : ℝ) / 255.0)
  let bf := gamma_correct ((b : ℝ) / 255.0)
  let x := (rf * 0.4124 + gf * 0.3576 + bf * 0.1805) / 0.95047
  let y := (rf * 0.2126 + gf * 0.7152 + bf * 0.0722) / 1.00000
  let z := (rf * 0.0193 + gf * 0.1192 + bf * 0.9505) / 1.08883
  let fx := lab_f x
  let fy := lab_f y
  let fz := lab_f z
  ⟨116.0 * fy - 16.0, 500.0 * (fx - fy), 200.0 * (fy - fz)⟩

/-- Inverse of the CIE `f` nonlinearity (the local lambda `f_inv`
inside `lab_to_rgb`). -/
noncomputable def lab_f_inv (t : ℝ) : ℝ :=
  if 0.008856 < t ^ 3 then t ^ 3 else (t - 16.0 / 116.0) / 7.787

/-- Clamp to `[0,1]`, scale to 255, add the 0.5 rounding offset and
truncate, modelling `static_cast<uint8_t>(... * 255.0f + 0.5f)` on a
value already clamped to `[0,1]` (truncation of a non-negative float is
`Int.floor`). -/
noncomputable def to_byte (x : ℝ) : ℕ :=
  (⌊max 0.0 (min 1.0 x) * 255.0 + 0.5⌋).toNat

/-- Lab to RGB conversion (`lab_to_rgb`, lines 120–154); returns the
channel triple. -/
noncomputable def lab_to_rgb (lab : Lab) : ℕ × ℕ × ℕ :=
  let fy := (lab.L + 16.0) / 116.0
  let fx := lab.a / 500.0 + fy
  let fz := fy - lab.b / 200.0
  let x := lab_f_inv fx * 0.95047
  let y := lab_f_inv fy * 1.00000
  let z := lab_f_inv fz * 1.08883
  let rf := gamma_uncorrect (x * 3.2406 + y * (-1.5372) + z * (-0.4986))
  let gf := gamma_uncorrect (x * (-0.9689) + y * 1.8758 + z * 0.0415)
  let bf := gamma_uncorrect (x * 0.0557 + y * (-0.2040) + z * 1.0570)
  (to_byte rf, to_byte gf, to_byte bf)

/-! ### CIEDE2000 (lines 160–261)

The source computes a chain of local variables; each becomes a named
definition of the two input colors, so that symmetry and sign lemmas can
be stated per intermediate quantity. -/

/-- Model of `std::atan2` over exact reals (radians, range `(-π, π]`,
`atan2 0 0 = 0`). -/
noncomputable def atan2 (y x : ℝ) : ℝ :=
  if 0 < x then Real.arctan (y / x)
  else if x < 0 then
    (if 0 ≤ y then Real.arctan (y / x) + Real.pi else Real.arctan (y / x) - Real.pi)
  else
    (if 0 < y then Real.pi / 2 else if y < 0 then -(Real.pi / 2) else 0)

/-- Local lambda `atan2_deg` of `ciede2000`: `atan2` converted to
degrees and normalized into `[0, 360)`. -/
noncomputable def atan2_deg (y x : ℝ) : ℝ :=
  let deg := atan2 y x * 180.0 / Real.pi
  if deg < 0 then deg + 360.0 else deg

/-- Chroma `C = sqrt(a² + b²)` (local `C1`, `C2`). -/
noncomputable def chroma (l : Lab) : ℝ :=
  Real.sqrt (l.a * l.a + l.b * l.b)

/-- Mean chroma `C_avg = (C1 + C2)/2`. -/
noncomputable def c_avg (l1 l2 : Lab) : ℝ :=
  (chroma l1 + chroma l2) / 2.0

/-- The `G` compensation factor (local `G`), with `25^7 = 6103515625`. -/
noncomputable def g_comp (l1 l2 : Lab) : ℝ :=
  0.5 * (1.0 - Real.sqrt (c_avg l1 l2 ^ 7 / (c_avg l1 l2 ^ 7 + 6103515625.0)))

/-- Compensated a-prime of the first argument (locals `a1_prime`,
`a2_prime`); the second argument only enters through the symmetric `G`. -/
noncomputable def a_prime (l other : Lab) : ℝ :=
  l.a * (1.0 + g_comp l other)

/-- Compensated chroma of the first argument (locals `C1_prime`, `C2_prime`). -/
noncomputable def c_prime (l other : Lab) : ℝ :=
  Real.sqrt (a_prime l other * a_prime l other + l.b * l.b)

/-- Hue angle of the first argument (locals `h1_prime`,
`h2_prime`). -/
noncomputable def h_prime (l other : Lab) : ℝ :=
  atan2_deg l.b (a_prime l other)

/-- Lightness difference, `L2 - L1` (line 193). -/
noncomputable def delta_L_prime (l1 l2 : Lab) : ℝ :=
  l2.L - l1.L

/-- Chroma difference of the compensated chromas (line 194). -/
noncomputable def delta_C_prime (l1 l2 : Lab) : ℝ :=
  c_prime l2 l1 - c_prime l1 l2

open Classical in
/-- Hue difference with the wrap-around branches (lines 196–208). -/
noncomputable def delta_h_prime (l1 l2 : Lab) : ℝ :=
  if c_prime l1 l2 * c_prime l2 l1 = 0.0 then 0.0
  else
    let diff := h_prime l2 l1 - h_prime l1 l2
    if |diff| ≤ 180.0 then diff
    else if 180.0 < diff then diff - 360.0
    else diff + 360.0

/-- Combined hue term, twice the root of the chroma product times the
half-angle sine of the hue difference (lines 210–211). -/
noncomputable def delta_H_prime (l1 l2 : Lab) : ℝ :=
  2.0 * Real.sqrt (c_prime l1 l2 * c_prime l2 l1) *
    Real.sin (delta_h_prime l1 l2 * Real.pi / 360.0)

/-- Mean lightness `L_avg = (L1 + L2)/2`. -/
noncomputable def l_avg (l1 l2 : Lab) : ℝ :=
  (l1.L + l2.L) / 2.0

/-- Mean compensated chroma (line 215). -/
noncomputable def c_avg_prime (l1 l2 : Lab) : ℝ :=
  (c_prime l1 l2 + c_prime l2 l1) / 2.0

open Classical in
/-- Mean hue with its three-way branch (lines 217–230). -/
noncomputable def h_avg_prime (l1 l2 : Lab) : ℝ :=
  if c_prime l1 l2 * c_prime l2 l1 = 0.0 then h_prime l1 l2 + h_prime l2 l1
  else
    let sum := h_prime l1 l2 + h_prime l2 l1
    let diff := |h_prime l1 l2 - h_prime l2 l1|
    if diff ≤ 180.0 then sum / 2.0
    else if sum < 360.0 then (sum + 360.0) / 2.0
    else (sum - 360.0) / 2.0

/-- The `T` weighting function (local `T`, lines 232–237). -/
noncomputable def t_weight (l1 l2 : Lab) : ℝ :=
  let h_rad := h_avg_prime l1 l2 * Real.pi / 180.0
  1.0 - 0.17 * Real.cos (h_rad - Real.pi / 6.0) +
    0.24 * Real.cos (2.0 * h_rad) +
    0.32 * Real.cos (3.0 * h_rad + Real.pi / 30.0) -
    0.20 * Real.cos (4.0 * h_rad - 1.099557)

/-- Hue-rotation angle, 30 times a Gaussian in the mean hue centred at
275 degrees (line 240). -/
noncomputable def delta_theta (l1 l2 : Lab) : ℝ :=
  30.0 * Real.exp (-(((h_avg_prime l1 l2 - 275.0) / 25.0) ^ 2))

/-- Rotation magnitude, twice the root of the seventh-power chroma
ratio (lines 241–242). -/
noncomputable def r_c (l1 l2 : Lab) : ℝ :=
  2.0 * Real.sqrt (c_avg_prime l1 l2 ^ 7 / (c_avg_prime l1 l2 ^ 7 + 6103515625.0))

/-- Lightness weighting `S_L` (lines 244–246). -/
noncomputable def s_l (l1 l2 : Lab) : ℝ :=
  1.0 + (0.015 * (l_avg l1 l2 - 50.0) * (l_avg l1 l2 - 50.0)) /
    Real.sqrt (20.0 + (l_avg l1 l2 - 50.0) * (l_avg l1 l2 - 50.0))

/-- Chroma weighting, one plus 0.045 times the mean compensated chroma
(line 247). -/
noncomputable def s_c (l1 l2 : Lab) : ℝ :=
  1.0 + 0.045 * c_avg_prime l1 l2

/-- Hue weighting, one plus 0.015 times the mean compensated chroma
times the T weight (line 248). -/
noncomputable def s_h (l1 l2 : Lab) : ℝ :=
  1.0 + 0.015 * c_avg_prime l1 l2 * t_weight l1 l2

/-- Rotation term `R_T` (line 250). -/
noncomputable def r_t (l1 l2 : Lab) : ℝ :=
  -Real.sin (2.0 * delta_theta l1 l2 * Real.pi / 180.0) * r_c l1 l2

/-- The radicand of the final `ΔE` formula,
the sum of the three squared weighted differences plus the rotation
cross term
(lines 253–258). -/
noncomputable def ciede2000_radicand (l1 l2 : Lab) : ℝ :=
  let delta_L := delta_L_prime l1 l2 / s_l l1 l2
  let delta_C := delta_C_prime l1 l2 / s_c l1 l2
  let delta_H := delta_H_prime l1 l2 / s_h l1 l2
  delta_L * delta_L + delta_C * delta_C + delta_H * delta_H +
    r_t l1 l2 * delta_C * delta_H

/-- CIEDE2000 color difference (`ciede2000`, lines 160–261). -/
noncomputable def ciede2000 (l1 l2 : Lab) : ℝ :=
  Real.sqrt (ciede2000_radicand l1 l2)

/-! ### Symmetry of the CIEDE2000 intermediates -/

lemma c_avg_comm (l1 l2 : Lab) : c_avg l1 l2 = c_avg l2 l1 := by
  unfold c_avg; ring

lemma g_comp_comm (l1 l2 : Lab) : g_comp l1 l2 = g_comp l2 l1 := by
  unfold g_comp; rw [c_avg_comm]

lemma c_avg_prime_comm (l1 l2 : Lab) : c_avg_prime l1 l2 = c_avg_prime l2 l1 := by
  unfold c_avg_prime; ring

lemma l_avg_comm (l1 l2 : Lab) : l_avg l1 l2 = l_avg l2 l1 := by
  unfold l_avg; ring

lemma h_avg_prime_comm (l1 l2 : Lab) : h_avg_prime l1 l2 = h_avg_prime l2 l1 := by
  unfold h_avg_prime
  rw [mul_comm (c_prime l2 l1), abs_sub_comm (h_prime l2 l1),
    add_comm (h_prime l2 l1)]

lemma t_weight_comm (l1 l2 : Lab) : t_weight l1 l2 = t_weight l2 l1 := by
  unfold t_weight; rw [h_avg_prime_comm]

lemma delta_theta_comm (l1 l2 : Lab) : delta_theta l1 l2 = delta_theta l2 l1 := by
  unfold delta_theta; rw [h_avg_prime_comm]

lemma r_c_comm (l1 l2 : Lab) : r_c l1 l2 = r_c l2 l1 := by
  unfold r_c; rw [c_avg_prime_comm]

lemma s_l_comm (l1 l2 : Lab) : s_l l1 l2 = s_l l2 l1 := by
  unfold s_l; rw [l_avg_comm]

lemma s_c_comm (l1 l2 : Lab) : s_c l1 l2 = s_c l2 l1 := by
  unfold s_c; rw [c_avg_prime_comm]

lemma s_h_comm (l1 l2 : Lab) : s_h l1 l2 = s_h l2 l1 := by
  unfold s_h; rw [c_avg_prime_comm, t_weight_comm]

lemma r_t_comm (l1 l2 : Lab) : r_t l1 l2 = r_t l2 l1 := by
  unfold r_t; rw [delta_theta_comm, r_c_comm]

lemma delta_L_prime_antisymm (l1 l2 : Lab) :
    delta_L_prime l2 l1 = -delta_L_prime l1 l2 := by
  unfold delta_L_prime; ring

lemma delta_C_prime_antisymm (l1 l2 : Lab) :
    delta_C_prime l2 l1 = -delta_C_prime l1 l2 := by
  unfold delta_C_prime; ring

lemma delta_h_prime_antisymm (l1 l2 : Lab) :
    delta_h_prime l2 l1 = -delta_h_prime l1 l2 := by
  unfold delta_h_prime
  rw [mul_comm (c_prime l2 l1)]
  by_cases hz : c_prime l1 l2 * c_prime l2 l1 = 0.0
  · simp only [if_pos hz]; norm_num
  · simp only [if_neg hz]
    set d : ℝ := h_prime l2 l1 - h_prime l1 l2 with hd
    have hswap : h_prime l1 l2 - h_prime l2 l1 = -d := by rw [hd]; ring
    rw [hswap, abs_neg]
    by_cases h1 : |d| ≤ 180.0
    · simp [h1]
    · have hgt : 180.0 < |d| := lt_of_not_le h1
      simp only [if_neg h1]
      rcases abs_cases d with ⟨he, _⟩ | ⟨he, hneg⟩
      · have hdpos : 180.0 < d := he ▸ hgt
        have h2 : ¬ (180.0 < -d) := by linarith
        simp only [if_pos hdpos, if_neg h2]
        ring
      · have hdneg : d < -180.0 := by rw [he] at hgt; linarith
        have h2 : ¬ (180.0 < d) := by linarith
        have h3 : 180.0 < -d := by linarith
        simp only [if_neg h2, if_pos h3]
        ring

lemma delta_H_prime_antisymm (l1 l2 : Lab) :
    delta_H_prime l2 l1 = -delta_H_prime l1 l2 := by
  unfold delta_H_prime
  rw [mul_comm (c_prime l2 l1), delta_h_prime_antisymm]
  rw [show -delta_h_prime l1 l2 * Real.pi / 360.0 =
    -(delta_h_prime l1 l2 * Real.pi / 360.0) by ring]
  rw [Real.sin_neg]
  ring

lemma ciede2000_radicand_comm (l1 l2 : Lab) :
    ciede2000_radicand l1 l2 = ciede2000_radicand l2 l1 := by
  unfold ciede2000_radicand
  rw [delta_L_prime_antisymm, delta_C_prime_antisymm, delta_H_prime_antisymm,
    s_l_comm l2 l1, s_c_comm l2 l1, s_h_comm l2 l1, r_t_comm l2 l1]
  ring

lemma ciede2000_comm (l1 l2 : Lab) : ciede2000 l1 l2 = ciede2000 l2 l1 := by
  unfold ciede2000; rw [ciede2000_radicand_comm]

/-! ### Non-negativity of the CIEDE2000 radicand -/

lemma c_prime_nonneg (l other : Lab) : 0 ≤ c_prime l other :=
  Real.sqrt_nonneg _

lemma r_c_nonneg (l1 l2 : Lab) : 0 ≤ r_c l1 l2 := by
  unfold r_c
  positivity

lemma r_c_le_two (l1 l2 : Lab) : r_c l1 l2 ≤ 2 := by
  unfold r_c
  have h7 : (0 : ℝ) ≤ c_avg_prime l1 l2 ^ 7 := by
    have := c_prime_nonneg l1 l2
    have := c_prime_nonneg l2 l1
    unfold c_avg_prime
    positivity
  have hle : c_avg_prime l1 l2 ^ 7 / (c_avg_prime l1 l2 ^ 7 + 6103515625.0) ≤ 1 := by
    rw [div_le_one (by linarith)]
    linarith
  have := Real.sqrt_le_sqrt hle
  rw [Real.sqrt_one] at this
  linarith

lemma abs_r_t_le_two (l1 l2 : Lab) : |r_t l1 l2| ≤ 2 := by
  unfold r_t
  rw [abs_mul, abs_neg, abs_of_nonneg (r_c_nonneg l1 l2)]
  calc |Real.sin (2.0 * delta_theta l1 l2 * Real.pi / 180.0)| * r_c l1 l2
      ≤ 1 * r_c l1 l2 := by
        apply mul_le_mul_of_nonneg_right _ (r_c_nonneg l1 l2)
        exact abs_le.mpr ⟨Real.neg_one_le_sin _, Real.sin_le_one _⟩
    _ ≤ 2 := by rw [one_mul]; exact r_c_le_two l1 l2

lemma quad_form_nonneg (x y z R : ℝ) (h1 : -2 ≤ R) (h2 : R ≤ 2) :
    0 ≤ x * x + y * y + z * z + R * y * z := by
  nlinarith [sq_nonneg x,
    mul_nonneg (by linarith : (0:ℝ) ≤ 2 - R) (sq_nonneg (y - z)),
    mul_nonneg (by linarith : (0:ℝ) ≤ 2 + R) (sq_nonneg (y + z))]

lemma ciede2000_radicand_nonneg (l1 l2 : Lab) : 0 ≤ ciede2000_radicand l1 l2 := by
  have habs := abs_r_t_le_two l1 l2
  rw [abs_le] at habs
  obtain ⟨h1, h2⟩ := habs
  unfold ciede2000_radicand
  exact quad_form_nonneg _ _ _ _ h1 h2

lemma ciede2000_nonneg (l1 l2 : Lab) : 0 ≤ ciede2000 l1 l2 :=
  Real.sqrt_nonneg _

lemma delta_h_prime_self (l : Lab) : delta_h_prime l l = 0 := by
  unfold delta_h_prime
  by_cases hz : c_prime l l * c_prime l l = 0.0
  · rw [if_pos hz]; norm_num
  · rw [if_neg hz]
    simp only [sub_self, abs_zero]
    norm_num

lemma ciede2000_radicand_self (l : Lab) : ciede2000_radicand l l = 0 := by
  unfold ciede2000_radicand delta_L_prime delta_C_prime delta_H_prime
  rw [delta_h_prime_self]
  simp

lemma ciede2000_self (l : Lab) : ciede2000 l l = 0 := by
  unfold ciede2000
  rw [ciede2000_radicand_self, Real.sqrt_zero]

/-! ### K-Means clustering in Lab space (`kmeans_lab`, lines 267–353)

The `std::mt19937 gen` seeded from `std::random_device`, composed with
`std::uniform_int_distribution<size_t> dist(0, pixels.size()-1)`, is
modelled as an explicit random source: a state type `σ` with a step
function producing a natural number, reduced into range by `% size`
(the distribution always yields an in-range index, and every in-range
index sequence is realisable by some oracle). -/

/-- Explicit integer random source replacing `dist(gen)`. -/
structure NatRng (σ : Type) where
  next : σ → ℕ × σ

/-- Draw `pixels[dist(gen)]`, threading the generator state. -/
def drawPixel {σ : Type} (rng : NatRng σ) (pixels : List Lab) (g : σ) :
    Lab × σ :=
  let d := rng.next g
  (pixels.getD (d.1 % pixels.length) default, d.2)

/-- Initial centroids: `k` random draws from the sample set
(lines 280–282). -/
def initCentroids {σ : Type} (rng : NatRng σ) (pixels : List Lab) :
    ℕ → σ → List Lab × σ
  | 0, g => ([], g)
  | k + 1, g =>
    let d := drawPixel rng pixels g
    let rest := initCentroids rng pixels k d.2
    (d.1 :: rest.1, rest.2)

/-- Nearest-centroid search (lines 292–304): running best index and best
distance, strict `<` so the first of equal distances wins. -/
noncomputable def closestAux (p : Lab) : List Lab → ℕ → ℕ → ℝ → ℕ
  | [], _, best, _ => best
  | c :: rest, j, best, bestDist =>
    let d := ciede2000 p c
    if d < bestDist then closestAux p rest (j + 1) j d
    else closestAux p rest (j + 1) best bestDist

/-- Value of `std::numeric_limits<float>::max()`, the initial
`min_dist`. -/
noncomputable def floatMax : ℝ :=
  340282346638528859811704183484516925440.0

/-- Index of the nearest centroid for one sample (`closest`). -/
noncomputable def closestIdx (p : Lab) (centroids : List Lab) : ℕ :=
  closestAux p centroids 0 0 floatMax

/-- Samples assigned to cluster `j` under an assignment list
(the per-cluster accumulation of lines 310–316, read back per index). -/
def clusterMembers (pixels : List Lab) (assign : List ℕ) (j : ℕ) :
    List Lab :=
  ((pixels.zip assign).filter (fun pa => pa.2 = j)).map Prod.fst

/-- Per-cluster centroid update (lines 318–327): arithmetic mean of the
members, or a random reseed when the cluster is empty.  Iterates over
the cluster indices in order, threading the generator state. -/
noncomputable def updateLoop {σ : Type} (rng : NatRng σ) (pixels : List Lab)
    (assign : List ℕ) : List ℕ → σ → List Lab × σ
  | [], g => ([], g)
  | j :: rest, g =>
    let mem := clusterMembers pixels assign j
    if mem.length ≠ 0 then
      let c : Lab := ⟨(mem.map Lab.L).sum / mem.length,
        (mem.map Lab.a).sum / mem.length,
        (mem.map Lab.b).sum / mem.length⟩
      let r := updateLoop rng pixels assign rest g
      (c :: r.1, r.2)
    else
      let d := drawPixel rng pixels g
      let r := updateLoop rng pixels assign rest d.2
      (d.1 :: r.1, r.2)

open Classical in
/-- The main K-Means iteration (lines 287–343): assignment pass, update
pass, convergence check (`ciede2000(old, new) > 1.0` for any pair means
not converged), early exit on convergence.  Returns the final centroids,
the cluster sizes of the last executed update pass, and the generator. -/
noncomputable def kmeansIter {σ : Type} (rng : NatRng σ) (pixels : List Lab)
    (k : ℕ) : ℕ → List Lab → List ℕ → σ → List Lab × List ℕ × σ
  | 0, centroids, sizes, g => (centroids, sizes, g)
  | iters + 1, centroids, _sizes, g =>
    let assign := pixels.map (fun p => closestIdx p centroids)
    let newSizes := (List.range k).map (fun j => assign.count j)
    let upd := updateLoop rng pixels assign (List.range k) g
    if ∀ jc ∈ centroids.zip upd.1, ¬ 1.0 < ciede2000 jc.1 jc.2 then
      (upd.1, newSizes, upd.2)
    else
      kmeansIter rng pixels k iters upd.1 newSizes upd.2

/-- K-Means over Lab samples (`kmeans_lab`, lines 267–353): empty input
or `k ≤ 0` yields the empty cluster list; otherwise random
initialisation followed by at most `max_iters` assign/update passes;
the result pairs each final centroid with its last population count. -/
noncomputable def kmeans_lab {σ : Type} (rng : NatRng σ) (g : σ)
    (pixels : List Lab) (k : ℕ) (max_iters : ℕ) : List Cluster :=
  if pixels.isEmpty ∨ k = 0 then []
  else
    let ini := initCentroids rng pixels k g
    let res := kmeansIter rng pixels k max_iters ini.1 (List.replicate k 0) ini.2
    (res.1.zip res.2.1).map (fun cs => ⟨cs.1, cs.2⟩)

/-! ### Bounds and conservation lemmas for K-Means -/

lemma closestAux_lt (p : Lab) (k : ℕ) :
    ∀ (l : List Lab) (j best : ℕ) (bd : ℝ), best < k → j + l.length ≤ k →
      closestAux p l j best bd < k := by
  intro l
  induction l with
  | nil => intro j best bd hb _; simpa [closestAux] using hb
  | cons c rest ih =>
    intro j best bd hb hlen
    simp only [List.length_cons] at hlen
    unfold closestAux
    by_cases hd : ciede2000 p c < bd
    · rw [if_pos hd]
      exact ih (j + 1) j _ (by omega) (by omega)
    · rw [if_neg hd]
      exact ih (j + 1) best _ hb (by omega)

lemma closestIdx_lt (p : Lab) (centroids : List Lab) (k : ℕ)
    (hlen : centroids.length = k) (hk : 0 < k) : closestIdx p centroids < k := by
  unfold closestIdx
  exact closestAux_lt p k centroids 0 0 floatMax hk (by omega)

lemma range_map_sum_eq_finset (f : ℕ → ℕ) (k : ℕ) :
    ((List.range k).map f).sum = ∑ j ∈ Finset.range k, f j := by
  induction k with
  | zero => simp
  | succ n ih =>
    rw [List.range_succ, List.map_append, List.sum_append,
      Finset.sum_range_succ, ih]
    simp

lemma count_range_sum (k : ℕ) :
    ∀ l : List ℕ, (∀ a ∈ l, a < k) →
      ((List.range k).map (fun j => l.count j)).sum = l.length := by
  intro l
  induction l with
  | nil => intro _; simp
  | cons a rest ih =>
    intro hmem
    have ha : a < k := hmem a (by simp)
    have hrest : ∀ x ∈ rest, x < k := fun x hx => hmem x (by simp [hx])
    rw [range_map_sum_eq_finset]
    have hterm : ∀ j, (a :: rest).count j = rest.count j + if a = j then 1 else 0 := by
      intro j
      simp [List.count_cons]
    calc ∑ j ∈ Finset.range k, (a :: rest).count j
        = ∑ j ∈ Finset.range k, (rest.count j + if a = j then 1 else 0) := by
          exact Finset.sum_congr rfl (fun j _ => hterm j)
      _ = (∑ j ∈ Finset.range k, rest.count j) +
          (∑ j ∈ Finset.range k, if a = j then 1 else 0) := by
          rw [Finset.sum_add_distrib]
      _ = rest.length + 1 := by
          rw [← range_map_sum_eq_finset, ih hrest, Finset.sum_ite_eq]
          simp [Finset.mem_range.mpr ha]
      _ = (a :: rest).length := by simp [Nat.add_comm]

lemma updateLoop_length {σ : Type} (rng : NatRng σ) (pixels : List Lab)
    (assign : List ℕ) :
    ∀ (js : List ℕ) (g : σ), (updateLoop rng pixels assign js g).1.length = js.length := by
  intro js
  induction js with
  | nil => intro g; simp [updateLoop]
  | cons j rest ih =>
    intro g
    unfold updateLoop
    by_cases h : (clusterMembers pixels assign j).length ≠ 0
    · rw [if_pos h]; simp [ih]
    · rw [if_neg h]; simp [ih]

lemma initCentroids_length {σ : Type} (rng : NatRng σ) (pixels : List Lab) :
    ∀ (k : ℕ) (g : σ), (initCentroids rng pixels k g).1.length = k := by
  intro k
  induction k with
  | zero => intro g; simp [initCentroids]
  | succ n ih => intro g; simp [initCentroids, ih]

/-- One assignment-update pass always produces size counts summing to
the number of samples, provided the centroid list is full. -/
lemma newSizes_sum {σ : Type} (_rng : NatRng σ) (pixels : List Lab) (k : ℕ)
    (hk : 0 < k) (centroids : List Lab) (hc : centroids.length = k) :
    ((List.range k).map
      (fun j => (pixels.map (fun p => closestIdx p centroids)).count j)).sum
      = pixels.length := by
  rw [count_range_sum k _ ?_]
  · exact pixels.length_map _
  · intro a ha
    rw [List.mem_map] at ha
    obtain ⟨p, _, rfl⟩ := ha
    exact closestIdx_lt p centroids k hc hk

lemma kmeansIter_sizes_sum {σ : Type} (rng : NatRng σ) (pixels : List Lab)
    (k : ℕ) (hk : 0 < k) :
    ∀ (iters : ℕ) (centroids : List Lab) (sizes : List ℕ) (g : σ),
      centroids.length = k → sizes.sum = pixels.length →
      ((kmeansIter rng pixels k iters centroids sizes g).2.1).sum = pixels.length := by
  intro iters
  induction iters with
  | zero => intro centroids sizes g _ hs; simpa [kmeansIter] using hs
  | succ n ih =>
    intro centroids sizes g hc hs
    unfold kmeansIter
    by_cases hconv : ∀ jc ∈ centroids.zip
        (updateLoop rng pixels (pixels.map fun p => closestIdx p centroids)
          (List.range k) g).1, ¬ 1.0 < ciede2000 jc.1 jc.2
    · rw [if_pos hconv]
      exact newSizes_sum rng pixels k hk centroids hc
    · rw [if_neg hconv]
      exact ih _ _ _
        (by rw [updateLoop_length]; exact List.length_range k)
        (newSizes_sum rng pixels k hk centroids hc)

/-- From the first pass on, the reported sizes conserve the sample
count regardless of the initial (zero) sizes vector. -/
lemma kmeansIter_sizes_sum_of_pos {σ : Type} (rng : NatRng σ)
    (pixels : List Lab) (k : ℕ) (hk : 0 < k) (iters : ℕ) (hi : 1 ≤ iters)
    (centroids : List Lab) (sizes : List ℕ) (g : σ)
    (hc : centroids.length = k) :
    ((kmeansIter rng pixels k iters centroids sizes g).2.1).sum = pixels.length := by
  obtain ⟨n, rfl⟩ : ∃ n, iters = n + 1 := ⟨iters - 1, by omega⟩
  unfold kmeansIter
  by_cases hconv : ∀ jc ∈ centroids.zip
      (updateLoop rng pixels (pixels.map fun p => closestIdx p centroids)
        (List.range k) g).1, ¬ 1.0 < ciede2000 jc.1 jc.2
  · rw [if_pos hconv]
    exact newSizes_sum rng pixels k hk centroids hc
  · rw [if_neg hconv]
    exact kmeansIter_sizes_sum rng pixels k hk n _ _ _
      (by rw [updateLoop_length]; exact List.length_range k)
      (newSizes_sum rng pixels k hk centroids hc)

lemma kmeansIter_lengths {σ : Type} (rng : NatRng σ) (pixels : List Lab)
    (k : ℕ) :
    ∀ (iters : ℕ) (centroids : List Lab) (sizes : List ℕ) (g : σ),
      centroids.length = k → sizes.length = k →
      (kmeansIter rng pixels k iters centroids sizes g).1.length = k ∧
      (kmeansIter rng pixels k iters centroids sizes g).2.1.length = k := by
  intro iters
  induction iters with
  | zero => intro centroids sizes g hc hs; simpa [kmeansIter] using ⟨hc, hs⟩
  | succ n ih =>
    intro centroids sizes g hc hs
    unfold kmeansIter
    by_cases hconv : ∀ jc ∈ centroids.zip
        (updateLoop rng pixels (pixels.map fun p => closestIdx p centroids)
          (List.range k) g).1, ¬ 1.0 < ciede2000 jc.1 jc.2
    · rw [if_pos hconv]
      refine ⟨?_, ?_⟩
      · rw [updateLoop_length]; exact List.length_range k
      · simp
    · rw [if_neg hconv]
      exact ih _ _ _
        (by rw [updateLoop_length]; exact List.length_range k)
        (by simp)

/-- The populations reported by `kmeans_lab` are the per-cluster
assignment counts of the last update pass; their total is the sample count. -/
lemma kmeans_lab_sizes_sum {σ : Type} (rng : NatRng σ) (g : σ)
    (pixels : List Lab) (k iters : ℕ)
    (hpix : pixels ≠ []) (hk : 0 < k) (hi : 1 ≤ iters) :
    ((kmeans_lab rng g pixels k iters).map Cluster.size).sum = pixels.length := by
  unfold kmeans_lab
  rw [if_neg (by simp only [List.isEmpty_iff, not_or]; exact ⟨hpix, by omega⟩)]
  have hthis := kmeansIter_lengths rng pixels k iters
    (initCentroids rng pixels k g).1 (List.replicate k 0)
    (initCentroids rng pixels k g).2
    (initCentroids_length rng pixels k g) (by simp)
  obtain ⟨h1, h2⟩ := hthis
  rw [List.map_map]
  have hzip : (((kmeansIter rng pixels k iters (initCentroids rng pixels k g).1
      (List.replicate k 0) (initCentroids rng pixels k g).2).1.zip
      (kmeansIter rng pixels k iters (initCentroids rng pixels k g).1
      (List.replicate k 0) (initCentroids rng pixels k g).2).2.1).map
      (Cluster.size ∘ fun cs => Cluster.mk cs.1 cs.2)).sum
      = ((kmeansIter rng pixels k iters (initCentroids rng pixels k g).1
      (List.replicate k 0) (initCentroids rng pixels k g).2).2.1).sum := by
    congr 1
    have : (Cluster.size ∘ fun cs : Lab × ℕ => Cluster.mk cs.1 cs.2) = Prod.snd := rfl
    rw [this]
    exact List.map_snd_zip _ _ (by omega)
  rw [hzip]
  exact kmeansIter_sizes_sum_of_pos rng pixels k hk iters hi _ _ _
    (initCentroids_length rng pixels k g)

/-! ### Palette selection (`extract_colors`, lines 480–583) -/

open Classical in
/-- Phase 1 (lines 484–501): walk the sorted cluster list, stop at `n`
accepted colors, accept a centroid only when its CIEDE2000 distance to
every already-accepted color is not below `min_distance`. -/
noncomputable def phase1 (min_distance : ℝ) (n : ℕ) :
    List Cluster → List Lab → List Lab
  | [], selected => selected
  | c :: rest, selected =>
    if n ≤ selected.length then selected
    else if ∀ s ∈ selected, ¬ ciede2000 c.centroid s < min_distance then
      phase1 min_distance n rest (selected ++ [c.centroid])
    else
      phase1 min_distance n rest selected

open Classical in
/-- Phase 2, relaxed backfill (lines 504–534): re-walk the cluster
list; skip centroids within 0.1 of an accepted color, accept those at
distance not below the lowered threshold 10.0. -/
noncomputable def phase2 (n : ℕ) : List Cluster → List Lab → List Lab
  | [], selected => selected
  | c :: rest, selected =>
    if n ≤ selected.length then selected
    else if ∃ s ∈ selected, ciede2000 c.centroid s < 0.1 then
      phase2 n rest selected
    else if ∀ s ∈ selected, ¬ ciede2000 c.centroid s < 10.0 then
      phase2 n rest (selected ++ [c.centroid])
    else
      phase2 n rest selected

/-- Real-valued random source for the synthetic-fallback phase: the
three `uniform_real_distribution` objects `dist_L` (`[20,80]`),
`dist_ab` (`[-100,100]`) and `dist_perturb` (`[-30,30]`) applied to the
shared generator, each modelled as a state-threading draw. -/
structure RealRng (σ : Type) where
  distL : σ → ℝ × σ
  distAB : σ → ℝ × σ
  distPerturb : σ → ℝ × σ

/-- Candidate construction of one fallback iteration (lines 544–561):
a random Lab when nothing is selected yet, else the reflected mean
`(100 - avg_L, -avg_a, -avg_b)` of the selected colors. -/
noncomputable def phase3Candidate {σ : Type} (rng : RealRng σ) (g : σ)
    (selected : List Lab) : Lab × σ :=
  if selected.isEmpty then
    let dL := rng.distL g
    let dA := rng.distAB dL.2
    let dB := rng.distAB dA.2
    ((⟨dL.1, dA.1, dB.1⟩ : Lab), dB.2)
  else
    let m : ℝ := selected.length
    ((⟨100.0 - (selected.map Lab.L).sum / m,
      -((selected.map Lab.a).sum / m),
      -((selected.map Lab.b).sum / m)⟩ : Lab), g)

/-- The perturbed variant accepted unconditionally when the candidate
fails the distance test (lines 575–581): ±30 uniform on `L` and the
same draw scaled by 1.5 on `a`/`b`, clamped to `[0,100]` and
`[-128,127]`. -/
noncomputable def phase3Perturbed {σ : Type} (rng : RealRng σ) (g : σ)
    (cand : Lab) : Lab × σ :=
  let p1 := rng.distPerturb g
  let p2 := rng.distPerturb p1.2
  let p3 := rng.distPerturb p2.2
  (⟨max 0.0 (min 100.0 (cand.L + p1.1)),
    max (-128.0) (min 127.0 (cand.a + p2.1 * 1.5)),
    max (-128.0) (min 127.0 (cand.b + p3.1 * 1.5))⟩, p3.2)

open Classical in
/-- Phase 3, synthetic fallback (lines 543–583): while fewer than `n`
colors are selected, build a candidate, accept it if it passes
`min_distance` against every selected color, otherwise accept its
perturbed variant unconditionally; each iteration therefore appends
exactly one color. -/
noncomputable def phase3 {σ : Type} (rng : RealRng σ) (min_distance : ℝ)
    (n : ℕ) (g : σ) (selected : List Lab) : List Lab :=
  if h : selected.length < n then
    let cand := phase3Candidate rng g selected
    if ∀ s ∈ selected, ¬ ciede2000 cand.1 s < min_distance then
      phase3 rng min_distance n cand.2 (selected ++ [cand.1])
    else
      let pert := phase3Perturbed rng cand.2 cand.1
      phase3 rng min_distance n pert.2 (selected ++ [pert.1])
  else selected
termination_by n - selected.length
decreasing_by
  all_goals simp only [List.length_append, List.length_cons, List.length_nil]
  all_goals omega

/-- Descending-population sort of the clusters (lines 475–478,
`std::sort` with comparator `a.size > b.size`). -/
def sortClusters (clusters : List Cluster) : List Cluster :=
  clusters.mergeSort (fun a b => Nat.ble b.size a.size)

/-- The `static_cast<size_t>(num_colors)` conversion: twos-complement
reduction of the signed value into the 64-bit unsigned range. -/
def intToSizeT (v : ℤ) : ℕ :=
  (v % 18446744073709551616).toNat

/-! ### Input decoding and pixel filtering (`extract_colors`,
lines 372–461)

The pybind `bytes` buffer is a byte list; `*reinterpret_cast<const
int*>(data)` reads a little-endian twos-complement 32-bit integer. -/

/-- Unsigned little-endian 32-bit read at an offset. -/
def readUInt32 (data : List ℕ) (off : ℕ) : ℕ :=
  data.getD off 0 % 256 + data.getD (off + 1) 0 % 256 * 256 +
    data.getD (off + 2) 0 % 256 * 65536 + data.getD (off + 3) 0 % 256 * 16777216

/-- Signed 32-bit read (`*reinterpret_cast<const int*>`). -/
def readInt32 (data : List ℕ) (off : ℕ) : ℤ :=
  let u := readUInt32 data off
  if u < 2147483648 then (u : ℤ) else (u : ℤ) - 4294967296

/-- Errors raised by `extract_colors`: the four `invalid_argument`
throws and the `runtime_error` for too few valid pixels (all-or-nothing,
no partial palette accompanies an error). -/
inductive ExtractError where
  | emptyData
  | invalidFormat
  | invalidSize
  | unsupportedFormat
  | insufficientPixels
deriving DecidableEq

/-- The nearest-neighbor downscale plus alpha and brightness filtering
(lines 416–449): for each target pixel, map back to the source pixel by
integer index arithmetic, drop it when a 4th channel is below 128, drop
it when the mean brightness exceeds 240 or is below 20. -/
def filteredPixels (data : List ℕ) (max_image_size : ℤ) : List RGB :=
  let width := (readInt32 data 0).toNat
  let height := (readInt32 data 4).toNat
  let pixels := data.drop 8
  let channels := (data.length - 8) / (width * height)
  let target_width := (min (readInt32 data 0) max_image_size).toNat
  let target_height := (min (readInt32 data 4) max_image_size).toNat
  ((List.range target_height).map (fun y =>
    (List.range target_width).filterMap (fun x =>
      let src_x := x * width / target_width
      let src_y := y * height / target_height
      let src_idx := (src_y * width + src_x) * channels
      let r := pixels.getD src_idx 0
      let g := pixels.getD (src_idx + 1) 0
      let b := pixels.getD (src_idx + 2) 0
      if channels = 4 ∧ pixels.getD (src_idx + 3) 0 < 128 then none
      else if 240 < (r + g + b) / 3 ∨ (r + g + b) / 3 < 20 then none
      else some ⟨r, g, b⟩))).flatten

/-- Validity of the header and channel inference, mirroring the input
checks of lines 383–413: non-empty data of at least 8 bytes, positive
parsed width and height, and an inferred channel count of 3 or 4. -/
def validImageData (data : List ℕ) : Prop :=
  8 ≤ data.length ∧ 0 < readInt32 data 0 ∧ 0 < readInt32 data 4 ∧
    ((data.length - 8) / ((readInt32 data 0).toNat * (readInt32 data 4).toNat) = 3 ∨
     (data.length - 8) / ((readInt32 data 0).toNat * (readInt32 data 4).toNat) = 4)

instance (data : List ℕ) : Decidable (validImageData data) := by
  unfold validImageData
  infer_instance

/-- Main extraction entry point (`extract_colors`, lines 372–595).
Randomized steps take explicit oracles: `shuffle` for the
subsampling `std::shuffle`, `krng`/`kg` for the K-Means generator and
`prng`/`pg` for the fallback-synthesis generator. -/
noncomputable def extract_colors {σ₁ σ₂ : Type}
    (krng : NatRng σ₁) (kg : σ₁) (prng : RealRng σ₂) (pg : σ₂)
    (shuffle : List RGB → List RGB)
    (data : List ℕ) (num_colors : ℤ) (min_distance : ℝ)
    (max_image_size : ℤ) :
    Except ExtractError (List (ℕ × ℕ × ℕ)) :=
  if data.length = 0 then .error .emptyData
  else if data.length < 8 then .error .invalidFormat
  else if readInt32 data 0 ≤ 0 ∨ readInt32 data 4 ≤ 0 then .error .invalidSize
  else if ¬ ((data.length - 8) / ((readInt32 data 0).toNat * (readInt32 data 4).toNat) = 3 ∨
      (data.length - 8) / ((readInt32 data 0).toNat * (readInt32 data 4).toNat) = 4) then
    .error .unsupportedFormat
  else
    let scaled_pixels := filteredPixels data max_image_size
    if scaled_pixels.length < 10 then .error .insufficientPixels
    else
      let sampled := if 5000 < scaled_pixels.length
        then (shuffle scaled_pixels).take 5000 else scaled_pixels
      let lab_pixels := sampled.map (fun p => rgb_to_lab p.r p.g p.b)
      let clusters := kmeans_lab krng kg lab_pixels 8 30
      let sorted := sortClusters clusters
      let n := intToSizeT num_colors
      let sel1 := phase1 min_distance n sorted []
      let sel2 := if sel1.length < n then phase2 n sorted sel1 else sel1
      let sel3 := phase3 prng min_distance n pg sel2
      .ok ((sel3.take n).map lab_to_rgb)

/-! ### Selection-phase lemmas -/

/-- The greedy acceptance test of Phase 1 preserves pairwise diversity
of the accumulator. -/
lemma phase1_pairwise_aux (m : ℝ) (n : ℕ) :
    ∀ (cs : List Cluster) (sel : List Lab),
      sel.Pairwise (fun x y => ¬ ciede2000 y x < m) →
      (phase1 m n cs sel).Pairwise (fun x y => ¬ ciede2000 y x < m) := by
  intro cs
  induction cs with
  | nil => intro sel h; simpa [phase1] using h
  | cons c rest ih =>
    intro sel h
    unfold phase1
    by_cases h1 : n ≤ sel.length
    · rw [if_pos h1]; exact h
    · rw [if_neg h1]
      by_cases h2 : ∀ s ∈ sel, ¬ ciede2000 c.centroid s < m
      · rw [if_pos h2]
        apply ih
        rw [List.pairwise_append]
        refine ⟨h, List.pairwise_singleton _ _, ?_⟩
        intro x hx y hy
        rw [List.mem_singleton] at hy
        subst hy
        exact h2 x hx
      · rw [if_neg h2]
        exact ih sel h

/-- Each Phase 3 iteration appends exactly one color, so the loop runs
exactly `n - selected.length` times and the result extends `selected`
to length `max n selected.length`. -/
lemma phase3_length_aux {σ : Type} (rng : RealRng σ) (m : ℝ) (n : ℕ) :
    ∀ (fuel : ℕ) (g : σ) (sel : List Lab), n - sel.length ≤ fuel →
      (phase3 rng m n g sel).length = max n sel.length ∧
      ∃ t, phase3 rng m n g sel = sel ++ t := by
  intro fuel
  induction fuel with
  | zero =>
    intro g sel hf
    rw [phase3]
    rw [dif_neg (by omega)]
    exact ⟨(Nat.max_eq_right (by omega)).symm, [], by simp⟩
  | succ f ih =>
    intro g sel hf
    rw [phase3]
    by_cases hlt : sel.length < n
    · rw [dif_pos hlt]
      dsimp only
      by_cases hacc : ∀ s ∈ sel,
          ¬ ciede2000 (phase3Candidate rng g sel).1 s < m
      · rw [if_pos hacc]
        obtain ⟨hlen, t, ht⟩ := ih (phase3Candidate rng g sel).2
          (sel ++ [(phase3Candidate rng g sel).1])
          (by simp only [List.length_append, List.length_cons,
            List.length_nil]; omega)
        refine ⟨?_, [(phase3Candidate rng g sel).1] ++ t, ?_⟩
        · rw [hlen]
          simp only [List.length_append, List.length_cons, List.length_nil]
          omega
        · rw [ht, List.append_assoc]
      · rw [if_neg hacc]
        obtain ⟨hlen, t, ht⟩ := ih
          (phase3Perturbed rng (phase3Candidate rng g sel).2
            (phase3Candidate rng g sel).1).2
          (sel ++ [(phase3Perturbed rng (phase3Candidate rng g sel).2
            (phase3Candidate rng g sel).1).1])
          (by simp only [List.length_append, List.length_cons,
            List.length_nil]; omega)
        refine ⟨?_, [(phase3Perturbed rng (phase3Candidate rng g sel).2
            (phase3Candidate rng g sel).1).1] ++ t, ?_⟩
        · rw [hlen]
          simp only [List.length_append, List.length_cons, List.length_nil]
          omega
        · rw [ht, List.append_assoc]
    · rw [dif_neg hlt]
      exact ⟨(Nat.max_eq_right (by omega)).symm, [], by simp⟩

lemma phase3_length {σ : Type} (rng : RealRng σ) (m : ℝ) (n : ℕ)
    (g : σ) (sel : List Lab) :
    (phase3 rng m n g sel).length = max n sel.length :=
  (phase3_length_aux rng m n (n - sel.length) g sel le_rfl).1

lemma phase3_extends {σ : Type} (rng : RealRng σ) (m : ℝ) (n : ℕ)
    (g : σ) (sel : List Lab) :
    ∃ t, phase3 rng m n g sel = sel ++ t :=
  (phase3_length_aux rng m n (n - sel.length) g sel le_rfl).2

lemma intToSizeT_of_small (v : ℤ) (h0 : 0 ≤ v)
    (h1 : v < 18446744073709551616) : intToSizeT v = v.toNat := by
  unfold intToSizeT
  rw [Int.emod_eq_of_lt h0 h1]

/-! ### Round-trip analysis for the color conversion

In exact real arithmetic the only round-trip error sources are the
four-decimal sRGB matrix pair (whose product differs from the identity
by at most 7e-5 per row) and the piecewise branch seams; the combined
error per channel stays below 0.5/255, so the byte round-trip is in
fact exact in this model, which is within the ±1 the claim allows. -/

lemma gamma_correct_nonneg (c : ℝ) (h : 0 ≤ c) : 0 ≤ gamma_correct c := by
  unfold gamma_correct
  by_cases hc : (0.04045 : ℝ) < c
  · rw [if_pos hc]
    exact Real.rpow_nonneg (div_nonneg (by linarith) (by norm_num)) _
  · rw [if_neg hc]
    exact div_nonneg h (by norm_num)

lemma gamma_correct_le_one (c : ℝ) (h : c ≤ 1) : gamma_correct c ≤ 1 := by
  unfold gamma_correct
  by_cases hc : (0.04045 : ℝ) < c
  · rw [if_pos hc]
    have hbase0 : (0 : ℝ) ≤ (c + 0.055) / 1.055 := div_nonneg (by linarith) (by norm_num)
    have hbase1 : (c + 0.055) / 1.055 ≤ 1 := (div_le_one (by norm_num)).mpr (by linarith)
    exact Real.rpow_le_one hbase0 hbase1 (by norm_num)
  · rw [if_neg hc]
    push_neg at hc
    exact (div_le_one (by norm_num)).mpr (by linarith)

/-- The CIE f pair inverts exactly: on the cube-root branch the inverse
takes the cube, and for arguments at or below 0.008856 the linear image
cubed never exceeds 0.008856 (the cube of the value at the seam is
0.0088559…), so the inverse always takes the matching branch. -/
lemma lab_f_inv_lab_f (t : ℝ) (ht : 0 ≤ t) : lab_f_inv (lab_f t) = t := by
  unfold lab_f lab_f_inv
  by_cases h : (0.008856 : ℝ) < t
  · rw [if_pos h]
    have hcube : (t ^ ((1:ℝ)/3)) ^ (3 : ℕ) = t := by
      rw [← Real.rpow_natCast (t ^ ((1:ℝ)/3)) 3, ← Real.rpow_mul ht]
      norm_num
    rw [hcube, if_pos h]
  · rw [if_neg h]
    push_neg at h
    have hu0 : (0 : ℝ) ≤ 7.787 * t + 16.0 / 116.0 := by nlinarith
    have humax : 7.787 * t + 16.0 / 116.0 ≤ 7.787 * 0.008856 + 16.0 / 116.0 := by
      nlinarith
    have hcube_le : (7.787 * t + 16.0 / 116.0) ^ (3 : ℕ) ≤
        (7.787 * 0.008856 + 16.0 / 116.0) ^ (3 : ℕ) :=
      pow_le_pow_left₀ hu0 humax 3
    have hseam : (7.787 * 0.008856 + 16.0 / 116.0 : ℝ) ^ (3 : ℕ) ≤ 0.008856 := by
      norm_num
    rw [if_neg (by nlinarith)]
    ring

/-- At every byte point `v/255` the gamma pair inverts exactly: for
`v ≤ 10` both sides stay on the linear segments, for `v ≥ 11` both stay
on the power segments, and no byte point falls in the tiny seam
mismatch band. -/
lemma gamma_roundtrip_byte (v : ℕ) (hv : v ≤ 255) :
    gamma_uncorrect (gamma_correct ((v : ℝ) / 255.0)) = (v : ℝ) / 255.0 := by
  by_cases h10 : v ≤ 10
  · have hvr : (v : ℝ) ≤ 10 := by exact_mod_cast h10
    have hv0 : (0 : ℝ) ≤ (v : ℝ) := Nat.cast_nonneg v
    have hc1 : (v : ℝ) / 255.0 ≤ 0.04045 := by
      rw [div_le_iff₀ (by norm_num)]; nlinarith
    have hc2 : (v : ℝ) / 255.0 / 12.92 ≤ 0.0031308 := by
      rw [div_le_iff (by norm_num)]
      rw [div_le_iff₀ (by norm_num)]; nlinarith
    unfold gamma_correct
    rw [if_neg (not_lt.mpr hc1)]
    unfold gamma_uncorrect
    rw [if_neg (not_lt.mpr hc2)]
    ring
  · push_neg at h10
    have hvr : (11 : ℝ) ≤ (v : ℝ) := by exact_mod_cast h10
    have hc1 : (0.04045 : ℝ) < (v : ℝ) / 255.0 := by
      rw [lt_div_iff₀ (by norm_num)]; nlinarith
    unfold gamma_correct
    rw [if_pos hc1]
    unfold gamma_uncorrect
    have hbase0 : (0 : ℝ) < ((v : ℝ) / 255.0 + 0.055) / 1.055 :=
      div_pos (by positivity) (by norm_num)
    have hb11 : ((11 : ℝ) / 255.0 + 0.055) / 1.055 ≤ ((v : ℝ) / 255.0 + 0.055) / 1.055 := by
      gcongr
    have hpow_lb : (0.0031308 : ℝ) <
        (((v : ℝ) / 255.0 + 0.055) / 1.055) ^ (2.4 : ℝ) := by
      have h1 : (((11 : ℝ) / 255.0 + 0.055) / 1.055) ^ (2.4 : ℝ) ≤
          (((v : ℝ) / 255.0 + 0.055) / 1.055) ^ (2.4 : ℝ) :=
        Real.rpow_le_rpow (by norm_num) hb11 (by norm_num)
      have h2 : (0.0031308 : ℝ) < (((11 : ℝ) / 255.0 + 0.055) / 1.055) ^ (2.4 : ℝ) := by
        have hexp : ((((11 : ℝ) / 255.0 + 0.055) / 1.055) ^ (2.4 : ℝ)) ^ (5 : ℕ) =
            (((11 : ℝ) / 255.0 + 0.055) / 1.055) ^ (12 : ℕ) := by
          rw [← Real.rpow_natCast ((((11 : ℝ) / 255.0 + 0.055) / 1.055) ^ (2.4 : ℝ)) 5,
            ← Real.rpow_mul (by norm_num)]
          norm_num
        refine lt_of_pow_lt_pow_left₀ 5 (Real.rpow_nonneg (by norm_num) _) ?_
        rw [hexp]
        norm_num
      linarith
    rw [if_pos hpow_lb]
    have hinv : ((((v : ℝ) / 255.0 + 0.055) / 1.055) ^ (2.4 : ℝ)) ^ ((1:ℝ)/2.4) =
        ((v : ℝ) / 255.0 + 0.055) / 1.055 := by
      rw [← Real.rpow_mul (le_of_lt hbase0)]
      norm_num
    rw [hinv]
    ring

/-- Recovery of the byte value from a real within 0.00132 of `v/255`:
the clamp cannot move the value across the rounding boundary and the
floor of the offset value is exactly `v`. -/
lemma to_byte_near (v : ℕ) (hv : v ≤ 255) (s : ℝ)
    (h : |s - (v : ℝ) / 255.0| ≤ 0.00132) : to_byte s = v := by
  rw [abs_le] at h
  obtain ⟨hlo, hhi⟩ := h
  have hv' : ((v : ℝ)) ≤ 255 := by exact_mod_cast hv
  have hv0 : (0 : ℝ) ≤ (v : ℝ) := Nat.cast_nonneg v
  unfold to_byte
  have hfloor : ⌊max 0.0 (min 1.0 s) * 255.0 + 0.5⌋ = (v : ℤ) := by
    rw [Int.floor_eq_iff]
    push_cast
    constructor
    · rcases le_total s 1.0 with hs1 | hs1
      · rw [min_eq_right hs1]
        rcases le_total 0.0 s with hs0 | hs0
        · rw [max_eq_right hs0]; nlinarith
        · rw [max_eq_left hs0]; nlinarith
      · rw [min_eq_left hs1, max_eq_right (by norm_num : (0.0:ℝ) ≤ 1.0)]
        nlinarith
    · rcases le_total s 1.0 with hs1 | hs1
      · rw [min_eq_right hs1]
        rcases le_total 0.0 s with hs0 | hs0
        · rw [max_eq_right hs0]; nlinarith
        · rw [max_eq_left hs0]; nlinarith
      · rw [min_eq_left hs1, max_eq_right (by norm_num : (0.0:ℝ) ≤ 1.0)]
        nlinarith
  rw [hfloor]
  exact Int.toNat_natCast v

/-- Mean-value bound for the inverse-gamma power segment: on
`[0.0031308, ∞)` the map `x ↦ x^(1/2.4)` moves by at most `145/12`
times the argument difference (its derivative is `(1/2.4)·x^(1/2.4-1)`,
and `0.0031308^(-7/12) ≤ 29`). -/
lemma rpow_inv_gamma_slope (a b : ℝ) (ha : 0.0031308 ≤ a) (hab : a ≤ b) :
    b ^ ((1:ℝ)/2.4) - a ^ ((1:ℝ)/2.4) ≤ 145.0 / 12.0 * (b - a) := by
  rcases eq_or_lt_of_le hab with rfl | hlt
  · simp
  · have ha0 : (0 : ℝ) < a := lt_of_lt_of_le (by norm_num) ha
    have hcont : ContinuousOn (fun x : ℝ => x ^ ((1:ℝ)/2.4)) (Set.Icc a b) :=
      ContinuousOn.rpow_const continuousOn_id (fun x _ => Or.inr (by norm_num))
    have hderiv : ∀ x ∈ Set.Ioo a b,
        HasDerivAt (fun x : ℝ => x ^ ((1:ℝ)/2.4))
          ((1:ℝ)/2.4 * x ^ ((1:ℝ)/2.4 - 1)) x := by
      intro x hx
      exact Real.hasDerivAt_rpow_const (Or.inl (ne_of_gt (lt_trans ha0 hx.1)))
    obtain ⟨ξ, hξ, hslope⟩ := exists_hasDerivAt_eq_slope
      (fun x : ℝ => x ^ ((1:ℝ)/2.4)) (fun x : ℝ => (1:ℝ)/2.4 * x ^ ((1:ℝ)/2.4 - 1))
      hlt hcont hderiv
    have hξth : (0.0031308 : ℝ) ≤ ξ := le_trans ha (le_of_lt hξ.1)
    have hξ0 : (0 : ℝ) < ξ := lt_of_lt_of_le (by norm_num) hξth
    have hexp_eq : ((1:ℝ)/2.4 - 1) = -(7.0/12.0) := by norm_num
    have hbound : ξ ^ ((1:ℝ)/2.4 - 1) ≤ 29 := by
      rw [hexp_eq, Real.rpow_neg (le_of_lt hξ0)]
      have hth712 : (1:ℝ)/29 ≤ (0.0031308 : ℝ) ^ (7.0/12.0 : ℝ) := by
        refine le_of_pow_le_pow_left (n := 12) (by norm_num)
          (Real.rpow_nonneg (by norm_num) _) ?_
        have h12 : ((0.0031308 : ℝ) ^ (7.0/12.0 : ℝ)) ^ (12 : ℕ) =
            (0.0031308 : ℝ) ^ (7 : ℕ) := by
          rw [← Real.rpow_natCast ((0.0031308 : ℝ) ^ (7.0/12.0 : ℝ)) 12,
            ← Real.rpow_mul (by norm_num)]
          norm_num
        rw [h12]
        norm_num
      have hmono : (0.0031308 : ℝ) ^ (7.0/12.0 : ℝ) ≤ ξ ^ (7.0/12.0 : ℝ) :=
        Real.rpow_le_rpow (by norm_num) hξth (by norm_num)
      have hpos : (0 : ℝ) < ξ ^ (7.0/12.0 : ℝ) := Real.rpow_pos_of_pos hξ0 _
      calc (ξ ^ (7.0/12.0 : ℝ))⁻¹ ≤ ((1:ℝ)/29)⁻¹ := by
            apply inv_le_inv_of_le (by norm_num)
            exact le_trans hth712 hmono
        _ = 29 := by norm_num
    have heq : b ^ ((1:ℝ)/2.4) - a ^ ((1:ℝ)/2.4) =
        (1:ℝ)/2.4 * ξ ^ ((1:ℝ)/2.4 - 1) * (b - a) := by
      rw [hslope, div_mul_cancel₀ _ (sub_ne_zero.mpr (ne_of_gt hlt))]
    rw [heq]
    have hd0 : (0 : ℝ) ≤ ξ ^ ((1:ℝ)/2.4 - 1) := Real.rpow_nonneg (le_of_lt hξ0) _
    nlinarith [hbound, hd0, sub_nonneg.mpr hab]

/-- Numeric bounds for the power value at the gamma seam, obtained by
comparing twelfth powers: `0.09046 ≤ 0.0031308^(5/12) ≤ 0.09048`. -/
lemma seam_rpow_bounds :
    (0.09046 : ℝ) ≤ (0.0031308 : ℝ) ^ ((1:ℝ)/2.4) ∧
    (0.0031308 : ℝ) ^ ((1:ℝ)/2.4) ≤ 0.09048 := by
  have h12 : ((0.0031308 : ℝ) ^ ((1:ℝ)/2.4)) ^ (12 : ℕ) =
      (0.0031308 : ℝ) ^ (5 : ℕ) := by
    rw [← Real.rpow_natCast ((0.0031308 : ℝ) ^ ((1:ℝ)/2.4)) 12,
      ← Real.rpow_mul (by norm_num)]
    norm_num
  constructor
  · refine le_of_pow_le_pow_left (n := 12) (by norm_num)
      (Real.rpow_nonneg (by norm_num) _) ?_
    rw [h12]
    norm_num
  · refine le_of_pow_le_pow_left (n := 12) (by norm_num) (by norm_num) ?_
    rw [h12]
    norm_num

/-- Ordered perturbation bound for the inverse gamma: moving the
argument up by at most `0.0001` moves the value up by at most `0.00132`
and down by at most `0.00002` (the power branch is `145/12`-Lipschitz
above the seam, the linear branch is `12.92`-Lipschitz, and the seam
jump lies in `[-0.00002, 0.00002]`). -/
lemma gamma_uncorrect_close_ordered (lo hi : ℝ) (hle : lo ≤ hi)
    (hd : hi - lo ≤ 0.0001) :
    -(0.00002) ≤ gamma_uncorrect hi - gamma_uncorrect lo ∧
    gamma_uncorrect hi - gamma_uncorrect lo ≤ 0.00132 := by
  obtain ⟨hq3, hq4⟩ := seam_rpow_bounds
  unfold gamma_uncorrect
  by_cases h2 : (0.0031308 : ℝ) < hi
  · by_cases h1 : (0.0031308 : ℝ) < lo
    · rw [if_pos h2, if_pos h1]
      have hmono : lo ^ ((1:ℝ)/2.4) ≤ hi ^ ((1:ℝ)/2.4) :=
        Real.rpow_le_rpow (by linarith) hle (by norm_num)
      have hlip := rpow_inv_gamma_slope lo hi (le_of_lt h1) hle
      constructor <;> nlinarith
    · rw [if_pos h2, if_neg h1]
      push_neg at h1
      have hmono : (0.0031308 : ℝ) ^ ((1:ℝ)/2.4) ≤ hi ^ ((1:ℝ)/2.4) :=
        Real.rpow_le_rpow (by norm_num) (le_of_lt h2) (by norm_num)
      have hlip := rpow_inv_gamma_slope 0.0031308 hi le_rfl (le_of_lt h2)
      constructor <;> nlinarith
  · rw [if_neg h2]
    have h1 : ¬ (0.0031308 : ℝ) < lo := by push_neg at h2 ⊢; linarith
    rw [if_neg h1]
    constructor <;> nlinarith

/-- Perturbing the inverse-gamma argument by at most `0.0001` moves the
result by at most `0.00132`. -/
lemma gamma_uncorrect_close (a s : ℝ) (h : |s - a| ≤ 0.0001) :
    |gamma_uncorrect s - gamma_uncorrect a| ≤ 0.00132 := by
  rw [abs_le] at h
  rw [abs_le]
  rcases le_total a s with hle | hle
  · have := gamma_uncorrect_close_ordered a s hle (by linarith)
    constructor <;> linarith [this.1, this.2]
  · have := gamma_uncorrect_close_ordered s a hle (by linarith)
    constructor <;> linarith [this.1, this.2]

/-- Unfolding of `lab_to_rgb` on a Lab value produced from the CIE f
images of three non-negative coordinates: the L*/a*/b* combination
inverts algebraically and the f pair inverts exactly, leaving the white
point rescale and the inverse matrix. -/
lemma lab_to_rgb_reconstruct (x y z : ℝ) (hx : 0 ≤ x) (hy : 0 ≤ y)
    (hz : 0 ≤ z) :
    lab_to_rgb ⟨116.0 * lab_f y - 16.0, 500.0 * (lab_f x - lab_f y),
      200.0 * (lab_f y - lab_f z)⟩ =
    (to_byte (gamma_uncorrect (x * 0.95047 * 3.2406 +
        y * 1.00000 * (-1.5372) + z * 1.08883 * (-0.4986))),
     to_byte (gamma_uncorrect (x * 0.95047 * (-0.9689) +
        y * 1.00000 * 1.8758 + z * 1.08883 * 0.0415)),
     to_byte (gamma_uncorrect (x * 0.95047 * 0.0557 +
        y * 1.00000 * (-0.2040) + z * 1.08883 * 1.0570))) := by
  have hfx0 : 500.0 * (lab_f x - lab_f y) / 500.0 +
      (116.0 * lab_f y - 16.0 + 16.0) / 116.0 = lab_f x := by ring
  have hfz0 : (116.0 * lab_f y - 16.0 + 16.0) / 116.0 -
      200.0 * (lab_f y - lab_f z) / 200.0 = lab_f z := by ring
  have hfy0 : (116.0 * lab_f y - 16.0 + 16.0) / 116.0 = lab_f y := by ring
  show (to_byte (gamma_uncorrect
      (lab_f_inv (500.0 * (lab_f x - lab_f y) / 500.0 +
        (116.0 * lab_f y - 16.0 + 16.0) / 116.0) * 0.95047 * 3.2406 +
       lab_f_inv ((116.0 * lab_f y - 16.0 + 16.0) / 116.0) * 1.00000 * (-1.5372) +
       lab_f_inv ((116.0 * lab_f y - 16.0 + 16.0) / 116.0 -
        200.0 * (lab_f y - lab_f z) / 200.0) * 1.08883 * (-0.4986))),
    to_byte (gamma_uncorrect
      (lab_f_inv (500.0 * (lab_f x - lab_f y) / 500.0 +
        (116.0 * lab_f y - 16.0 + 16.0) / 116.0) * 0.95047 * (-0.9689) +
       lab_f_inv ((116.0 * lab_f y - 16.0 + 16.0) / 116.0) * 1.00000 * 1.8758 +
       lab_f_inv ((116.0 * lab_f y - 16.0 + 16.0) / 116.0 -
        200.0 * (lab_f y - lab_f z) / 200.0) * 1.08883 * 0.0415)),
    to_byte (gamma_uncorrect
      (lab_f_inv (500.0 * (lab_f x - lab_f y) / 500.0 +
        (116.0 * lab_f y - 16.0 + 16.0) / 116.0) * 0.95047 * 0.0557 +
       lab_f_inv ((116.0 * lab_f y - 16.0 + 16.0) / 116.0) * 1.00000 * (-0.2040) +
       lab_f_inv ((116.0 * lab_f y - 16.0 + 16.0) / 116.0 -
        200.0 * (lab_f y - lab_f z) / 200.0) * 1.08883 * 1.0570))) = _
  rw [hfx0, hfz0, hfy0, lab_f_inv_lab_f x hx, lab_f_inv_lab_f y hy,
    lab_f_inv_lab_f z hz]

/-- Recovery of one byte channel: an inverse-gamma argument within
`0.0001` of the forward gamma value of `v/255` maps back to exactly
`v`. -/
lemma channel_recover (v : ℕ) (hv : v ≤ 255) (s : ℝ)
    (h : |s - gamma_correct ((v : ℝ) / 255.0)| ≤ 0.0001) :
    to_byte (gamma_uncorrect s) = v := by
  have h1 := gamma_uncorrect_close (gamma_correct ((v : ℝ) / 255.0)) s h
  rw [gamma_roundtrip_byte v hv] at h1
  exact to_byte_near v hv _ h1

set_option maxHeartbeats 2000000 in
/-- In the exact real model the full conversion round-trip recovers
every byte triple exactly: the only perturbation is the four-decimal
matrix pair, whose composed rows differ from the identity by less than
`0.0001`, which the inverse gamma amplifies to less than half a byte
step. -/
lemma lab_to_rgb_rgb_to_lab (r g b : ℕ) (hr : r ≤ 255) (hg : g ≤ 255)
    (hb : b ≤ 255) :
    lab_to_rgb (rgb_to_lab r g b) = (r, g, b) := by
  have h0r : (0:ℝ) ≤ (r:ℝ)/255.0 := by positivity
  have h0g : (0:ℝ) ≤ (g:ℝ)/255.0 := by positivity
  have h0b : (0:ℝ) ≤ (b:ℝ)/255.0 := by positivity
  have h1r : (r:ℝ)/255.0 ≤ 1 := by
    rw [div_le_one (by norm_num)]
    have : (r:ℝ) ≤ 255 := by exact_mod_cast hr
    linarith
  have h1g : (g:ℝ)/255.0 ≤ 1 := by
    rw [div_le_one (by norm_num)]
    have : (g:ℝ) ≤ 255 := by exact_mod_cast hg
    linarith
  have h1b : (b:ℝ)/255.0 ≤ 1 := by
    rw [div_le_one (by norm_num)]
    have : (b:ℝ) ≤ 255 := by exact_mod_cast hb
    linarith
  have hlr0 : 0 ≤ gamma_correct ((r:ℝ)/255.0) := gamma_correct_nonneg _ h0r
  have hlg0 : 0 ≤ gamma_correct ((g:ℝ)/255.0) := gamma_correct_nonneg _ h0g
  have hlb0 : 0 ≤ gamma_correct ((b:ℝ)/255.0) := gamma_correct_nonneg _ h0b
  have hlr1 : gamma_correct ((r:ℝ)/255.0) ≤ 1 := gamma_correct_le_one _ h1r
  have hlg1 : gamma_correct ((g:ℝ)/255.0) ≤ 1 := gamma_correct_le_one _ h1g
  have hlb1 : gamma_correct ((b:ℝ)/255.0) ≤ 1 := gamma_correct_le_one _ h1b
  have hx0 : (0:ℝ) ≤ (gamma_correct ((r:ℝ)/255.0) * 0.4124 +
      gamma_correct ((g:ℝ)/255.0) * 0.3576 +
      gamma_correct ((b:ℝ)/255.0) * 0.1805) / 0.95047 :=
    div_nonneg (by nlinarith) (by norm_num)
  have hy0 : (0:ℝ) ≤ (gamma_correct ((r:ℝ)/255.0) * 0.2126 +
      gamma_correct ((g:ℝ)/255.0) * 0.7152 +
      gamma_correct ((b:ℝ)/255.0) * 0.0722) / 1.00000 :=
    div_nonneg (by nlinarith) (by norm_num)
  have hz0 : (0:ℝ) ≤ (gamma_correct ((r:ℝ)/255.0) * 0.0193 +
      gamma_correct ((g:ℝ)/255.0) * 0.1192 +
      gamma_correct ((b:ℝ)/255.0) * 0.9505) / 1.08883 :=
    div_nonneg (by nlinarith) (by norm_num)
  have hmain : lab_to_rgb (rgb_to_lab r g b) =
      lab_to_rgb ⟨116.0 * lab_f ((gamma_correct ((r:ℝ)/255.0) * 0.2126 +
          gamma_correct ((g:ℝ)/255.0) * 0.7152 +
          gamma_correct ((b:ℝ)/255.0) * 0.0722) / 1.00000) - 16.0,
        500.0 * (lab_f ((gamma_correct ((r:ℝ)/255.0) * 0.4124 +
          gamma_correct ((g:ℝ)/255.0) * 0.3576 +
          gamma_correct ((b:ℝ)/255.0) * 0.1805) / 0.95047) -
          lab_f ((gamma_correct ((r:ℝ)/255.0) * 0.2126 +
          gamma_correct ((g:ℝ)/255.0) * 0.7152 +
          gamma_correct ((b:ℝ)/255.0) * 0.0722) / 1.00000)),
        200.0 * (lab_f ((gamma_correct ((r:ℝ)/255.0) * 0.2126 +
          gamma_correct ((g:ℝ)/255.0) * 0.7152 +
          gamma_correct ((b:ℝ)/255.0) * 0.0722) / 1.00000) -
          lab_f ((gamma_correct ((r:ℝ)/255.0) * 0.0193 +
          gamma_correct ((g:ℝ)/255.0) * 0.1192 +
          gamma_correct ((b:ℝ)/255.0) * 0.9505) / 1.08883))⟩ := rfl
  rw [hmain, lab_to_rgb_reconstruct _ _ _ hx0 hy0 hz0]
  have e1 : (gamma_correct ((r:ℝ)/255.0) * 0.4124 +
      gamma_correct ((g:ℝ)/255.0) * 0.3576 +
      gamma_correct ((b:ℝ)/255.0) * 0.1805) / 0.95047 * 0.95047 =
      gamma_correct ((r:ℝ)/255.0) * 0.4124 +
      gamma_correct ((g:ℝ)/255.0) * 0.3576 +
      gamma_correct ((b:ℝ)/255.0) * 0.1805 := by field_simp
  have e2 : (gamma_correct ((r:ℝ)/255.0) * 0.2126 +
      gamma_correct ((g:ℝ)/255.0) * 0.7152 +
      gamma_correct ((b:ℝ)/255.0) * 0.0722) / 1.00000 * 1.00000 =
      gamma_correct ((r:ℝ)/255.0) * 0.2126 +
      gamma_correct ((g:ℝ)/255.0) * 0.7152 +
      gamma_correct ((b:ℝ)/255.0) * 0.0722 := by field_simp
  have e3 : (gamma_correct ((r:ℝ)/255.0) * 0.0193 +
      gamma_correct ((g:ℝ)/255.0) * 0.1192 +
      gamma_correct ((b:ℝ)/255.0) * 0.9505) / 1.08883 * 1.08883 =
      gamma_correct ((r:ℝ)/255.0) * 0.0193 +
      gamma_correct ((g:ℝ)/255.0) * 0.1192 +
      gamma_correct ((b:ℝ)/255.0) * 0.9505 := by field_simp
  rw [e1, e2, e3]
  simp only [Prod.mk.injEq]
  refine ⟨?_, ?_, ?_⟩
  · refine channel_recover r hr _ ?_
    rw [abs_le]
    constructor <;> nlinarith
  · refine channel_recover g hg _ ?_
    rw [abs_le]
    constructor <;> nlinarith
  · refine channel_recover b hb _ ?_
    rw [abs_le]
    constructor <;> nlinarith

/-! ### Claim theorems -/

/-- C1: for every valid decoded image (positive width and height, 3 or
4 channels, at least 10 pixels surviving filtering) and every requested
palette size `num_colors ≥ 1` (within the `int` range), `extract_colors`
returns a palette of exactly `num_colors` RGB triples, for every random
oracle — the phase 2 and phase 3 backfills guarantee the count even
when fewer perceptually distinct clusters exist. -/
theorem extract_colors_palette_size {σ₁ σ₂ : Type} (krng : NatRng σ₁)
    (kg : σ₁) (prng : RealRng σ₂) (pg : σ₂) (shuffle : List RGB → List RGB)
    (data : List ℕ) (num_colors : ℤ) (min_distance : ℝ) (max_image_size : ℤ)
    (hvalid : validImageData data)
    (hcount : 10 ≤ (filteredPixels data max_image_size).length)
    (hn : 1 ≤ num_colors) (hn31 : num_colors < 2147483648) :
    ∃ p, extract_colors krng kg prng pg shuffle data num_colors min_distance
      max_image_size = .ok p ∧ p.length = num_colors.toNat := by
  obtain ⟨h8, hw, hh, hch⟩ := hvalid
  simp only [extract_colors]
  rw [if_neg (by omega), if_neg (by omega),
    if_neg (by simp only [not_or, not_le]; exact ⟨hw, hh⟩),
    if_neg (not_not_intro hch), if_neg (by omega)]
  refine ⟨_, rfl, ?_⟩
  rw [List.length_map, List.length_take, phase3_length]
  rw [intToSizeT_of_small num_colors (by omega) (by omega)]
  exact Nat.min_eq_left (Nat.le_max_left _ _)

/-- Data of a 4×4 3-channel image whose 16 pixels are all (100,100,100):
every pixel survives the filters. -/
def grayImageData : List ℕ :=
  [4, 0, 0, 0, 4, 0, 0, 0] ++ List.replicate 48 100

/-- Data of a 2×2 RGBA image whose pixels all have alpha 0: every pixel
is dropped by the transparency filter. -/
def transparentImageData : List ℕ :=
  [2, 0, 0, 0, 2, 0, 0, 0] ++
    [100, 100, 100, 0, 100, 100, 100, 0, 100, 100, 100, 0, 100, 100, 100, 0]

/-- Trivial integer random source (a counter) used to instantiate the
oracle-quantified theorems at concrete inputs. -/
def counterNatRng : NatRng ℕ := ⟨fun m => (m, m + 1)⟩

/-- Trivial real random source used to instantiate the
oracle-quantified theorems at concrete inputs. -/
noncomputable def constRealRng : RealRng Unit :=
  ⟨fun g => (50.0, g), fun g => (0.0, g), fun g => (0.0, g)⟩

/-- C2: for every uint8 triple, `lab_to_rgb (rgb_to_lab r g b)` differs
from the input by at most 1 per channel.  In the exact real model the
round-trip is in fact exact (the matrix perturbation stays below half a
byte step before rounding), which is within the ±1 the claim allows for
the floating-point source. -/
theorem rgb_lab_roundtrip_within_one (r g b : ℕ)
    (hr : r ≤ 255) (hg : g ≤ 255) (hb : b ≤ 255) :
    |((lab_to_rgb (rgb_to_lab r g b)).1 : ℤ) - (r : ℤ)| ≤ 1 ∧
    |((lab_to_rgb (rgb_to_lab r g b)).2.1 : ℤ) - (g : ℤ)| ≤ 1 ∧
    |((lab_to_rgb (rgb_to_lab r g b)).2.2 : ℤ) - (b : ℤ)| ≤ 1 := by
  rw [lab_to_rgb_rgb_to_lab r g b hr hg hb]
  simp

/-- Witness for C2: the round-trip bound instantiated at the concrete
triple (0, 128, 255). -/
theorem rgb_lab_roundtrip_within_one_witness :
    ((0 : ℕ) ≤ 255 ∧ (128 : ℕ) ≤ 255 ∧ (255 : ℕ) ≤ 255) ∧
    (|((lab_to_rgb (rgb_to_lab 0 128 255)).1 : ℤ) - ((0 : ℕ) : ℤ)| ≤ 1 ∧
     |((lab_to_rgb (rgb_to_lab 0 128 255)).2.1 : ℤ) - ((128 : ℕ) : ℤ)| ≤ 1 ∧
     |((lab_to_rgb (rgb_to_lab 0 128 255)).2.2 : ℤ) - ((255 : ℕ) : ℤ)| ≤ 1) :=
  ⟨⟨by decide, by decide, by decide⟩,
   rgb_lab_roundtrip_within_one 0 128 255 (by decide) (by decide) (by decide)⟩

/-- Witness for C1: the all-gray 4×4 RGB image with `num_colors = 3`
satisfies every hypothesis, and the palette has exactly 3 entries. -/
theorem extract_colors_palette_size_witness :
    (validImageData grayImageData ∧
     10 ≤ (filteredPixels grayImageData 150).length ∧
     (1 : ℤ) ≤ 3 ∧ (3 : ℤ) < 2147483648) ∧
    ∃ p, extract_colors counterNatRng 0 constRealRng () id grayImageData 3
      20.0 150 = .ok p ∧ p.length = (3 : ℤ).toNat :=
  ⟨⟨by decide, by decide, by decide, by decide⟩,
   extract_colors_palette_size counterNatRng 0 constRealRng () id
     grayImageData 3 20.0 150 (by decide) (by decide) (by decide) (by decide)⟩

/-- C3: under a valid header, extraction fails with the
insufficient-valid-pixels error exactly when fewer than 10 resampled
pixels survive the alpha and brightness filters; in the error case the
`Except` carries no palette at all. -/
theorem extract_colors_insufficient_iff {σ₁ σ₂ : Type} (krng : NatRng σ₁)
    (kg : σ₁) (prng : RealRng σ₂) (pg : σ₂) (shuffle : List RGB → List RGB)
    (data : List ℕ) (num_colors : ℤ) (min_distance : ℝ) (max_image_size : ℤ)
    (hvalid : validImageData data) :
    (extract_colors krng kg prng pg shuffle data num_colors min_distance
      max_image_size = .error .insufficientPixels) ↔
    (filteredPixels data max_image_size).length < 10 := by
  obtain ⟨h8, hw, hh, hch⟩ := hvalid
  simp only [extract_colors]
  rw [if_neg (by omega), if_neg (by omega),
    if_neg (by simp only [not_or, not_le]; exact ⟨hw, hh⟩),
    if_neg (not_not_intro hch)]
  by_cases hc : (filteredPixels data max_image_size).length < 10
  · rw [if_pos hc]
    simp [hc]
  · rw [if_neg hc]
    simp [hc]

/-- Witness for C3: the 2×2 RGBA image whose every pixel has alpha 0
passes the header checks and raises the insufficient-pixels error. -/
theorem extract_colors_insufficient_iff_witness :
    validImageData transparentImageData ∧
    extract_colors counterNatRng 0 constRealRng () id transparentImageData 5
      20.0 150 = .error .insufficientPixels :=
  ⟨by decide,
   (extract_colors_insufficient_iff counterNatRng 0 constRealRng () id
     transparentImageData 5 20.0 150 (by decide)).mpr (by decide)⟩

/-- C4: the CIEDE2000 distance is symmetric, exactly, over the
real-arithmetic model — covering the zero-chroma branch and the hue
wrap-around branches (in the floating-point source this holds within
rounding tolerance). -/
theorem ciede2000_symmetric (lab1 lab2 : Lab) :
    ciede2000 lab1 lab2 = ciede2000 lab2 lab1 :=
  ciede2000_comm lab1 lab2

/-- C5: the combined radicand of the CIEDE2000 formula is never
negative, the distance itself is non-negative for every pair, and the
distance of any Lab value to itself is zero. -/
theorem ciede2000_nonneg_and_self_zero :
    (∀ lab1 lab2 : Lab,
      0 ≤ ciede2000_radicand lab1 lab2 ∧ 0 ≤ ciede2000 lab1 lab2) ∧
    ∀ lab : Lab, ciede2000 lab lab = 0 :=
  ⟨fun l1 l2 => ⟨ciede2000_radicand_nonneg l1 l2, ciede2000_nonneg l1 l2⟩,
   ciede2000_self⟩

/-- C6: after the Phase 1 greedy walk, every pair of accepted centroids
is at CIEDE2000 distance at least `min_distance` — an invariant of each
acceptance step, for every cluster list, every `n` and every
`min_distance`. -/
theorem phase1_pairwise_diverse (min_distance : ℝ) (n : ℕ)
    (clusters : List Cluster) :
    (phase1 min_distance n clusters []).Pairwise
      (fun x y => min_distance ≤ ciede2000 x y) := by
  have h := phase1_pairwise_aux min_distance n clusters [] List.Pairwise.nil
  refine h.imp ?_
  intro x y hxy
  rw [not_lt] at hxy
  calc min_distance ≤ ciede2000 y x := hxy
    _ = ciede2000 x y := ciede2000_comm y x

/-- C7: the K-Means clustering is deterministic under a fixed random
source: two runs from the same generator state on the same samples
yield identical centroids and identical population counts. -/
theorem kmeans_lab_deterministic {σ : Type} (rng : NatRng σ)
    (pixels : List Lab) (k max_iters : ℕ) (g1 g2 : σ) (h : g1 = g2) :
    (kmeans_lab rng g1 pixels k max_iters).map Cluster.centroid =
      (kmeans_lab rng g2 pixels k max_iters).map Cluster.centroid ∧
    (kmeans_lab rng g1 pixels k max_iters).map Cluster.size =
      (kmeans_lab rng g2 pixels k max_iters).map Cluster.size := by
  subst h
  exact ⟨rfl, rfl⟩

/-- Witness for C7: two runs from the concrete counter generator state
0 coincide. -/
theorem kmeans_lab_deterministic_witness :
    ((0 : ℕ) = 0) ∧
    ((kmeans_lab counterNatRng 0 [default] 1 1).map Cluster.centroid =
      (kmeans_lab counterNatRng 0 [default] 1 1).map Cluster.centroid ∧
     (kmeans_lab counterNatRng 0 [default] 1 1).map Cluster.size =
      (kmeans_lab counterNatRng 0 [default] 1 1).map Cluster.size) :=
  ⟨rfl, kmeans_lab_deterministic counterNatRng [default] 1 1 0 0 rfl⟩

/-- C8: the Phase 3 synthetic-fallback loop is total and appends
exactly one color per iteration: for every oracle, threshold, target
`n` and start list, the result extends the start list and has length
`max n selected.length` (so exactly `n - selected.length` iterations
run, and the loop cannot fail to produce a color). -/
theorem phase3_terminates_exact {σ : Type} (rng : RealRng σ)
    (min_distance : ℝ) (n : ℕ) (g : σ) (selected : List Lab) :
    (phase3 rng min_distance n g selected).length = max n selected.length ∧
    ∃ t, phase3 rng min_distance n g selected = selected ++ t :=
  ⟨phase3_length rng min_distance n g selected,
   phase3_extends rng min_distance n g selected⟩

/-- C9: for every non-empty sample list, every `k ≥ 1` and at least one
iteration (the source default is 30), the population counts reported by
`kmeans_lab` sum to exactly the number of input samples. -/
theorem kmeans_lab_population_sum {σ : Type} (rng : NatRng σ) (g : σ)
    (pixels : List Lab) (k max_iters : ℕ)
    (hpix : pixels ≠ []) (hk : 1 ≤ k) (hi : 1 ≤ max_iters) :
    ((kmeans_lab rng g pixels k max_iters).map Cluster.size).sum =
      pixels.length :=
  kmeans_lab_sizes_sum rng g pixels k max_iters hpix hk hi

/-- Witness for C9: a single-sample run with `k = 1` and the default 30
iterations reports populations summing to 1. -/
theorem kmeans_lab_population_sum_witness :
    (([(default : Lab)] ≠ []) ∧ (1 : ℕ) ≤ 1 ∧ (1 : ℕ) ≤ 30) ∧
    ((kmeans_lab counterNatRng 0 [default] 1 30).map Cluster.size).sum = 1 :=
  ⟨⟨List.cons_ne_nil _ _, le_refl 1, by omega⟩,
   kmeans_lab_population_sum counterNatRng 0 [default] 1 30
     (List.cons_ne_nil _ _) (le_refl 1) (by omega)⟩

/-- C10: `extract_colors` never validates `num_colors`: with
`num_colors = 0` on an image that passes the input and filtering
checks, no error is raised and the returned palette is empty. -/
theorem extract_colors_zero_num_colors {σ₁ σ₂ : Type} (krng : NatRng σ₁)
    (kg : σ₁) (prng : RealRng σ₂) (pg : σ₂) (shuffle : List RGB → List RGB)
    (data : List ℕ) (min_distance : ℝ) (max_image_size : ℤ)
    (hvalid : validImageData data)
    (hcount : 10 ≤ (filteredPixels data max_image_size).length) :
    extract_colors krng kg prng pg shuffle data 0 min_distance
      max_image_size = .ok [] := by
  obtain ⟨h8, hw, hh, hch⟩ := hvalid
  simp only [extract_colors]
  rw [if_neg (by omega), if_neg (by omega),
    if_neg (by simp only [not_or, not_le]; exact ⟨hw, hh⟩),
    if_neg (not_not_intro hch), if_neg (by omega)]
  have h0 : intToSizeT 0 = 0 := by decide
  rw [h0]
  simp

/-- Witness for C10: the all-gray 4×4 image with `num_colors = 0`
returns the empty palette without error. -/
theorem extract_colors_zero_num_colors_witness :
    (validImageData grayImageData ∧
     10 ≤ (filteredPixels grayImageData 150).length) ∧
    extract_colors counterNatRng 0 constRealRng () id grayImageData 0
      20.0 150 = .ok [] :=
  ⟨⟨by decide, by decide⟩,
   extract_colors_zero_num_colors counterNatRng 0 constRealRng () id
     grayImageData 20.0 150 (by decide) (by decide)⟩

end FreeAssetFilter
